import Mathlib

/-!
Verification development for the live-vroid-mcp bridge.

The repository is a TypeScript MCP server that forwards avatar commands to a
remote rendering process over a WebSocket.  The development below gives a
shallow embedding of its core logic:

* the intent mapper `parseIntent` of `src/index.ts`;
* the connect retry loop and the synchronous prefix of `sendCommand` of
  `src/godot_connection.ts`;
* the `sequence_animations` tool handler of `src/index.ts`;
* an event-driven model of the pending-request lifecycle of
  `GodotConnection` (message, timeout, close and disconnect handlers),
  with ghost logs recording every settlement and every table removal.

Machine-level JavaScript details that the claims do not depend on
(precise JSON text on the wire, real-time durations) are abstracted;
control flow, data structures and produced strings follow the source.
-/

deriving instance DecidableEq for Except

namespace LiveVroid

/-! ### Intent mapper, from parseIntent in src/index.ts -/

/-- Result tuple of the intent mapper and payload of the avatar tools. -/
structure AvatarCommand where
  clip : String
  emotion : String
  lookAt : String
deriving DecidableEq, Repr

/-- The fixed animation vocabulary ANIMATIONS of src/index.ts, in source order. -/
def ANIMATIONS : List String :=
  ["idle", "wave", "jump", "walk", "run", "dance", "sit", "stand", "nod",
   "shake_head", "laugh", "think", "point", "clap", "bow"]

/-- Keyword list of the happy entry of the emotionMap object. -/
def happyKeywords : List String :=
  ["happy", "joy", "glad", "pleased", "delighted", "cheerful"]

/-- Keyword list of the sad entry of the emotionMap object. -/
def sadKeywords : List String :=
  ["sad", "unhappy", "down", "depressed", "blue"]

/-- The emotionMap object of parseIntent, as an ordered association list;
object literal keys iterate in insertion order in JavaScript. -/
def EMOTION_MAP : List (String × List String) :=
  [("happy", happyKeywords),
   ("sad", sadKeywords),
   ("angry", ["angry", "mad", "furious", "annoyed", "irritated"]),
   ("surprised", ["surprised", "shocked", "amazed", "astonished"]),
   ("confused", ["confused", "puzzled", "perplexed", "bewildered"]),
   ("excited", ["excited", "thrilled", "enthusiastic"]),
   ("shy", ["shy", "bashful", "timid", "nervous"]),
   ("confident", ["confident", "sure", "certain", "bold"])]

/-- JavaScript String.prototype.includes: the needle occurs as a contiguous
substring of the haystack. -/
def hasSub : List Char → List Char → Bool
  | [], needle => needle.isEmpty
  | c :: t, needle => needle.isPrefixOf (c :: t) || hasSub t needle

/-- The lowered input text, text.toLowerCase() in the source; the vocabulary
and the inputs of interest are ASCII, where Char.toLower agrees with
JavaScript toLowerCase. -/
def lowerOf (text : String) : List Char := text.data.map Char.toLower

/-- Animation detection loop of parseIntent: first vocabulary entry occurring
in the lowered input, defaulting to idle. -/
def clipOf (lower : List Char) : String :=
  (ANIMATIONS.find? (fun a => hasSub lower a.data)).getD ("idle")

/-- Emotion detection loop of parseIntent: first emotionMap entry one of whose
keywords occurs in the lowered input, defaulting to neutral. -/
def emotionOf (lower : List Char) : String :=
  ((EMOTION_MAP.find? (fun p => p.2.any (fun kw => hasSub lower kw.data))).map
    Prod.fst).getD ("neutral")

/-- The apostrophe character, code point 39. -/
def apos : Char := Char.ofNat 39

/-- The apostrophe as a one-character string. -/
def aposS : String := String.singleton apos

/-- The gaze phrase with a negated look, as written in the source. -/
def dontLookStr : String := "don" ++ aposS ++ "t look"

/-- Look-direction priority chain of parseIntent. -/
def lookAtOf (lower : List Char) : String :=
  if hasSub lower ("look away".data) || hasSub lower dontLookStr.data then "away"
  else if hasSub lower ("look down".data) then "down"
  else if hasSub lower ("look up".data) then "up"
  else "user"

/-- parseIntent of src/index.ts: lower the text, then run the three
independent detection passes on the lowered text. -/
def parseIntent (text : String) : AvatarCommand :=
  { clip := clipOf (lowerOf text),
    emotion := emotionOf (lowerOf text),
    lookAt := lookAtOf (lowerOf text) }

/-- Example input of the spec containing apostrophes. -/
def shyText : String := "don" ++ aposS ++ "t look at me, I" ++ aposS ++ "m shy"

/-- Claim C4, counterexample: the first spec example is wrong on the code.
The word happily does not contain the keyword happy as a contiguous substring
(the final y of happy becomes an i), and no other happy keyword occurs either,
so the emotion detection falls through to the default neutral. -/
theorem parseIntent_happily_counterexample :
    parseIntent ("Wave happily at the user") =
      { clip := "wave", emotion := "neutral", lookAt := "user" } ∧
    parseIntent ("Wave happily at the user") ≠
      { clip := "wave", emotion := "happy", lookAt := "user" } := by
  constructor <;> decide

/-- Claim C4 as amended: parseIntent is a pure function selecting the first
matching clip in vocabulary order (default idle), the first emotion with a
keyword match (default neutral), and the gaze by fixed priority (default
user); the first spec example yields emotion neutral rather than happy, the
other two spec examples hold as stated, and an input matching nothing yields
every default. -/
theorem parseIntent_examples :
    parseIntent ("Wave happily at the user") =
      { clip := "wave", emotion := "neutral", lookAt := "user" } ∧
    parseIntent ("just standing around") =
      { clip := "stand", emotion := "neutral", lookAt := "user" } ∧
    parseIntent shyText =
      { clip := "idle", emotion := "shy", lookAt := "away" } ∧
    parseIntent ("xyzzy") =
      { clip := "idle", emotion := "neutral", lookAt := "user" } := by
  refine ⟨?_, ?_, ?_, ?_⟩ <;> decide

/-- Claim C9: the sad keyword list contains the word down, so any input whose
lowered form contains down and matches no happy keyword is classified sad; in
particular the gaze phrase look down alone flips the emotion to sad. -/
theorem down_implies_sad (text : String)
    (hdown : hasSub (lowerOf text) ("down".data) = true)
    (hhappy : ∀ kw, kw ∈ happyKeywords → hasSub (lowerOf text) kw.data = false) :
    (parseIntent text).emotion = "sad" ∧
    parseIntent ("look down") = { clip := "idle", emotion := "sad", lookAt := "down" } := by
  constructor
  · have h1 := hhappy ("happy") (by decide)
    have h2 := hhappy ("joy") (by decide)
    have h3 := hhappy ("glad") (by decide)
    have h4 := hhappy ("pleased") (by decide)
    have h5 := hhappy ("delighted") (by decide)
    have h6 := hhappy ("cheerful") (by decide)
    show emotionOf (lowerOf text) = "sad"
    simp only [emotionOf, EMOTION_MAP, happyKeywords, sadKeywords, List.find?,
      List.any_cons, List.any_nil, h1, h2, h3, h4, h5, h6, hdown,
      Bool.false_or, Bool.or_false, Bool.true_or, Bool.or_true]
    rfl
  · decide

/-- Witness for claim C9 at the concrete input look down. -/
theorem down_implies_sad_witness :
    (parseIntent ("look down")).emotion = "sad" :=
  (down_implies_sad ("look down") (by decide) (by decide)).1

/-! ### Connection establishment, from GodotConnection.connect in
src/godot_connection.ts

The retry loop is driven by an oracle giving the outcome of each
individual connection attempt (attempt number n is the one logged as
Attempt n+1 by the source); an unreachable endpoint is the oracle that
fails every attempt. -/

/-- Outcome of one tryConnect call: the socket reached OPEN, or the attempt
failed with an underlying cause such as Connection timeout. -/
inductive AttemptOutcome
  | opened
  | failed (cause : String)
deriving DecidableEq, Repr

/-- Observable trace of one connect() call: how many attempts were made, how
many inter-attempt delays were awaited, and the overall outcome. -/
structure ConnectTrace where
  attempts : Nat
  delays : Nat
  result : Except String Unit
deriving Repr

/-- The while loop of connect(): fuel is the number of loop iterations still
allowed by the guard, retries the current value of the retries counter.  Each
iteration runs one attempt; on failure the counter increments, and either a
delay is awaited before the next iteration or the whole operation fails with
the final error message built from maxRetries and the last cause. -/
def connectLoop (oracle : Nat → AttemptOutcome) (maxRetries : Nat) :
    Nat → Nat → ConnectTrace
  | 0, _ => { attempts := 0, delays := 0, result := Except.ok () }
  | fuel + 1, retries =>
    match oracle retries with
    | AttemptOutcome.opened => { attempts := 1, delays := 0, result := Except.ok () }
    | AttemptOutcome.failed cause =>
      if retries + 1 ≤ maxRetries then
        let rest := connectLoop oracle maxRetries fuel (retries + 1)
        { attempts := rest.attempts + 1, delays := rest.delays + 1,
          result := rest.result }
      else
        { attempts := 1, delays := 0,
          result := Except.error ("Failed to connect after " ++ Nat.repr maxRetries
            ++ " retries: " ++ cause) }

/-- Synchronous view of a GodotConnection used by connect() and by the prefix
of sendCommand() that runs before any response can arrive: whether the ws
field is non-null, the connected flag, the pending table keys, and the
command counter. -/
structure SyncState where
  wsPresent : Bool
  connected : Bool
  table : List String
  commandId : Nat
deriving DecidableEq, Repr

/-- connect() on a SyncState: an already connected manager returns at once
with no attempt; otherwise the retry loop runs with the guard
retries less-or-equal maxRetries, so with fuel maxRetries + 1 from
retries 0. -/
def connectOp (oracle : Nat → AttemptOutcome) (maxRetries : Nat)
    (s : SyncState) : SyncState × ConnectTrace :=
  if s.connected then
    (s, { attempts := 0, delays := 0, result := Except.ok () })
  else
    let t := connectLoop oracle maxRetries (maxRetries + 1) 0
    match t.result with
    | Except.ok _ => ({ s with connected := true, wsPresent := true }, t)
    | Except.error _ => ({ s with wsPresent := false }, t)

/-- Claim C2: on an unreachable endpoint (every attempt fails), connect()
makes exactly maxRetries + 1 sequential attempts, awaits exactly maxRetries
inter-attempt delays, and fails carrying the cause of the last attempt in its
message. -/
theorem connect_retry_exhaustion (oracle : Nat → AttemptOutcome)
    (cause : Nat → String) (maxRetries : Nat) (s : SyncState)
    (hfail : ∀ n, oracle n = AttemptOutcome.failed (cause n))
    (hconn : s.connected = false) :
    (connectOp oracle maxRetries s).2 =
      { attempts := maxRetries + 1, delays := maxRetries,
        result := Except.error ("Failed to connect after " ++ Nat.repr maxRetries
          ++ " retries: " ++ cause maxRetries) } := by
  have key : ∀ fuel retries, 1 ≤ fuel → retries + fuel = maxRetries + 1 →
      connectLoop oracle maxRetries fuel retries =
        { attempts := fuel, delays := fuel - 1,
          result := Except.error ("Failed to connect after " ++ Nat.repr maxRetries
            ++ " retries: " ++ cause maxRetries) } := by
    intro fuel
    induction fuel with
    | zero => intro retries h1 _; omega
    | succ f ih =>
      intro retries _ hsum
      rcases Nat.eq_zero_or_pos f with hf0 | hfpos
      · subst hf0
        have hr : retries = maxRetries := by omega
        simp only [connectLoop, hfail]
        rw [hr]
        have hnot : ¬ (maxRetries + 1 ≤ maxRetries) := by omega
        simp [hnot]
      · have hle : retries + 1 ≤ maxRetries := by omega
        simp only [connectLoop, hfail, if_pos hle,
          ih (retries + 1) hfpos (by omega)]
        simp
        omega
  simp only [connectOp, hconn, Bool.false_eq_true, if_false]
  rw [key (maxRetries + 1) 0 (by omega) (by omega)]
  simp

/-- Witness for claim C2 at maxRetries 2 and a constantly failing oracle. -/
theorem connect_retry_exhaustion_witness :
    (connectOp (fun _ => AttemptOutcome.failed ("Connection timeout")) 2
        { wsPresent := false, connected := false, table := [], commandId := 0 }).2 =
      { attempts := 3, delays := 2,
        result := Except.error ("Failed to connect after 2 retries: Connection timeout") } := by
  have h := connect_retry_exhaustion
    (fun _ => AttemptOutcome.failed ("Connection timeout"))
    (fun _ => "Connection timeout") 2
    { wsPresent := false, connected := false, table := [], commandId := 0 }
    (fun _ => rfl) rfl
  simpa using h

/-- Claim C8: connect() on an already connected manager is an idempotent
no-op: it succeeds immediately with zero attempts and zero delays and leaves
the whole state, pending table included, unchanged. -/
theorem connect_open_noop (oracle : Nat → AttemptOutcome) (maxRetries : Nat)
    (s : SyncState) (hconn : s.connected = true) :
    connectOp oracle maxRetries s =
      (s, { attempts := 0, delays := 0, result := Except.ok () }) := by
  simp [connectOp, hconn]

/-- Witness for claim C8 at a concrete connected state with a pending entry. -/
theorem connect_open_noop_witness :
    connectOp (fun _ => AttemptOutcome.failed ("unreachable")) 3
        { wsPresent := true, connected := true, table := ["cmd_0"], commandId := 1 } =
      ({ wsPresent := true, connected := true, table := ["cmd_0"], commandId := 1 },
        { attempts := 0, delays := 0, result := Except.ok () }) :=
  connect_open_noop (fun _ => AttemptOutcome.failed ("unreachable")) 3
    { wsPresent := true, connected := true, table := ["cmd_0"], commandId := 1 } rfl

/-! ### Synchronous prefix of sendCommand, from GodotConnection.sendCommand

sendCommand first ensures a connection, wrapping a connect() failure in a
new error whose message is prefixed with Failed to connect, then allocates
the correlation identifier cmd_ followed by the counter value, arms the
per-command timer, registers the pending entry and writes the envelope; if
the socket is not OPEN at write time the fresh entry is torn down again and
the call rejects at once. -/

/-- Correlation identifier allocation: cmd_ followed by the decimal counter. -/
def mkId (n : Nat) : String := "cmd_" ++ Nat.repr n

/-- Result of the synchronous prefix of one sendCommand call: the state it
leaves behind, the envelopes written to the socket as pairs of command type
and correlation identifier, and either the correlation identifier now pending
or the immediate rejection message. -/
structure SendStart where
  state : SyncState
  wrote : List (String × String)
  result : Except String String
deriving DecidableEq, Repr

/-- The promise executor body of sendCommand: allocate the identifier,
register the entry, then write the envelope if the socket is OPEN, else tear
the fresh entry down again and reject.  Registration followed by immediate
deletion on the non-OPEN branch leaves the table unchanged, which is how it
is modelled. -/
def sendCommandOpenPart (type : String) (s' : SyncState) : SendStart :=
  let id := mkId s'.commandId
  if s'.connected then
    { state := { s' with commandId := s'.commandId + 1, table := id :: s'.table },
      wrote := [(type, id)], result := Except.ok id }
  else
    { state := { s' with commandId := s'.commandId + 1 },
      wrote := [], result := Except.error ("WebSocket not connected") }

/-- The part of sendCommand that runs synchronously before any response,
timeout or close can settle the new request. -/
def sendCommandStart (oracle : Nat → AttemptOutcome) (maxRetries : Nat)
    (type : String) (s : SyncState) : SendStart :=
  if !s.wsPresent || !s.connected then
    match connectOp oracle maxRetries s with
    | (s', t) =>
      match t.result with
      | Except.error e =>
        { state := s', wrote := [],
          result := Except.error ("Failed to connect: " ++ e) }
      | Except.ok _ => sendCommandOpenPart type s'
  else sendCommandOpenPart type s

/-- Claim C5, counterexample: when the transparent connect() fails, the code
rethrows a new error whose message wraps the connect message behind the
Failed to connect prefix, so the operation does not fail with the same error
that connect produced. -/
theorem sendCommand_connect_error_not_identical :
    (connectOp (fun _ => AttemptOutcome.failed ("Connection timeout")) 3
        { wsPresent := false, connected := false, table := [], commandId := 0 }).2.result =
      Except.error ("Failed to connect after 3 retries: Connection timeout") ∧
    (sendCommandStart (fun _ => AttemptOutcome.failed ("Connection timeout")) 3
        ("avatar_control")
        { wsPresent := false, connected := false, table := [], commandId := 0 }).result =
      Except.error
        ("Failed to connect: Failed to connect after 3 retries: Connection timeout") ∧
    ("Failed to connect: Failed to connect after 3 retries: Connection timeout" : String) ≠
      "Failed to connect after 3 retries: Connection timeout" := by
  refine ⟨?_, ?_, ?_⟩ <;> decide

/-- Claim C5 as amended: if sendCommand is invoked while the connection is
not open it transparently invokes connect() first; if that connect fails, the
whole sendCommand call fails with an error carrying the connect error message
behind the fixed prefix Failed to connect, nothing is written to the socket,
and no pending table entry is created. -/
theorem sendCommand_connect_failure_wrapped (oracle : Nat → AttemptOutcome)
    (maxRetries : Nat) (type : String) (s : SyncState) (e : String)
    (hnotOpen : (!s.wsPresent || !s.connected) = true)
    (hfail : (connectOp oracle maxRetries s).2.result = Except.error e) :
    (sendCommandStart oracle maxRetries type s).result =
        Except.error ("Failed to connect: " ++ e) ∧
    (sendCommandStart oracle maxRetries type s).wrote = [] ∧
    (sendCommandStart oracle maxRetries type s).state.table = s.table := by
  have htab : (connectOp oracle maxRetries s).1.table = s.table := by
    simp only [connectOp]
    rcases hc : s.connected with hc | hc
    · simp only [Bool.false_eq_true, if_false]
      cases hres : (connectLoop oracle maxRetries (maxRetries + 1) 0).result <;> simp
    · simp
  simp only [sendCommandStart, hnotOpen, if_true]
  rcases hmatch : connectOp oracle maxRetries s with ⟨s', t⟩
  have : t.result = Except.error e := by rw [← hfail, hmatch]
  rw [this]
  have : s'.table = s.table := by rw [← htab, hmatch]
  simp [this]

/-- Witness for claim C5 at a disconnected state and an unreachable
endpoint. -/
theorem sendCommand_connect_failure_wrapped_witness :
    (sendCommandStart (fun _ => AttemptOutcome.failed ("Connection timeout")) 3
        ("avatar_control")
        { wsPresent := false, connected := false, table := [], commandId := 0 }).result =
      Except.error
        ("Failed to connect: Failed to connect after 3 retries: Connection timeout") :=
  (sendCommand_connect_failure_wrapped
    (fun _ => AttemptOutcome.failed ("Connection timeout")) 3 ("avatar_control")
    { wsPresent := false, connected := false, table := [], commandId := 0 }
    ("Failed to connect after 3 retries: Connection timeout")
    (by decide) (by decide)).1

/-! ### Sequenced dispatch, from the sequence_animations handler in
src/index.ts

The handler loops over the steps; for each step it first awaits the delay
when the delay field is truthy, then builds the command with defaulted
emotion and gaze, sends it through sendToGodot (which throws when the socket
is not ready) and appends a trace entry.  The catch block turns any throw
into a fixed error payload.  A readiness oracle indexed by step position
models socketReady at the moment each step sends. -/

/-- One entry of the sequence argument of the sequence_animations tool. -/
structure AnimStep where
  clip : String
  emotion : Option String
  lookAt : Option String
  delay : Option Nat
deriving DecidableEq, Repr

/-- JavaScript or-else on strings: the left operand unless it is absent or
empty (falsy). -/
def orDefault (o : Option String) (d : String) : String :=
  match o with
  | some v => if v = ("" : String) then d else v
  | none => d

/-- The command built for one step, with the defaults of the handler. -/
def cmdOfStep (st : AnimStep) : AvatarCommand :=
  { clip := st.clip, emotion := orDefault st.emotion ("neutral"),
    lookAt := orDefault st.lookAt ("user") }

/-- Externally observable action of the sequence loop: a timed suspension or
a send to the socket. -/
inductive SeqAction
  | wait (ms : Nat)
  | send (cmd : AvatarCommand)
deriving DecidableEq, Repr

/-- The suspension performed for one step: present only when the delay field
is set and nonzero, because if open-paren step.delay close-paren is a JS
truthiness test and 0 is falsy. -/
def delayActions (st : AnimStep) : List SeqAction :=
  match st.delay with
  | some d => if d = 0 then [] else [SeqAction.wait d]
  | none => []

/-- The trace entry pushed after a successful send of one step. -/
def resultEntry (c : AvatarCommand) : String :=
  c.clip ++ " (" ++ c.emotion ++ ")"

/-- The message of the error thrown by sendToGodot in src/index.ts. -/
def notConnectedMsg : String :=
  "WebSocket not connected to Godot. Make sure Godot is running and WebSocket server is active."

/-- The for-loop of the handler: position counter, accumulated results array,
remaining steps.  Returns the actions performed, the final results array and
the thrown message if any. -/
def runSeqAux (ready : Nat → Bool) :
    Nat → List String → List AnimStep → List SeqAction × List String × Option String
  | _, results, [] => ([], results, none)
  | k, results, st :: rest =>
    if ready k then
      let next := runSeqAux ready (k + 1) (results ++ [resultEntry (cmdOfStep st)]) rest
      (delayActions st ++ (SeqAction.send (cmdOfStep st) :: next.1), next.2.1, next.2.2)
    else
      (delayActions st, results, some notConnectedMsg)

/-- Full outcome of one sequence_animations invocation: the actions in order,
the text of the returned content and the isError flag. -/
structure SeqOutcome where
  actions : List SeqAction
  text : String
  isError : Bool
deriving DecidableEq, Repr

/-- The sequence_animations handler: run the loop from position 0 with an
empty results array, then render either the joined trace or the catch-block
error payload. -/
def runSeq (ready : Nat → Bool) (steps : List AnimStep) : SeqOutcome :=
  match runSeqAux ready 0 [] steps with
  | (acts, results, none) =>
    { actions := acts,
      text := "Executed animation sequence: " ++ String.intercalate (" → ") results,
      isError := false }
  | (acts, _, some e) =>
    { actions := acts, text := "Error: " ++ e, isError := true }

/-- The per-step action list the spec prescribes: each delay strictly before
its own send, steps strictly in list order. -/
def expectedActions : List AnimStep → List SeqAction
  | [] => []
  | st :: rest => delayActions st ++ (SeqAction.send (cmdOfStep st) :: expectedActions rest)

/-- Demonstration sequence of the spec example: wave with no delay, then jump
after 2000 ms. -/
def demoSteps : List AnimStep :=
  [{ clip := "wave", emotion := none, lookAt := none, delay := some 0 },
   { clip := "jump", emotion := none, lookAt := none, delay := some 2000 }]

/-- The loop output when every step sends successfully. -/
theorem runSeqAux_all_ready (ready : Nat → Bool) :
    ∀ steps k results, (∀ j, j < steps.length → ready (k + j) = true) →
      runSeqAux ready k results steps =
        (expectedActions steps,
         results ++ steps.map (fun st => resultEntry (cmdOfStep st)), none) := by
  intro steps
  induction steps with
  | nil => intro k results _; simp [runSeqAux, expectedActions]
  | cons st rest ih =>
    intro k results h
    have h0 : ready k = true := by
      have := h 0 (by simp)
      simpa using this
    have hrest : ∀ j, j < rest.length → ready (k + 1 + j) = true := by
      intro j hj
      have := h (j + 1) (by simp; omega)
      simpa [Nat.add_assoc, Nat.add_comm 1 j] using this
    simp only [runSeqAux, h0, if_true, ih (k + 1) _ hrest, expectedActions]
    simp

/-- The loop output when the first failing step is at relative position k0:
the earlier steps run completely, the failing step performs its suspension
but sends nothing, the remaining steps do not run, and the thrown message is
the fixed sendToGodot message. -/
theorem runSeqAux_first_fail (ready : Nat → Bool) :
    ∀ steps k results k0 (hlt : k0 < steps.length),
      (∀ j, j < k0 → ready (k + j) = true) → ready (k + k0) = false →
      runSeqAux ready k results steps =
        (expectedActions (steps.take k0) ++ delayActions (steps.get ⟨k0, hlt⟩),
         results ++ (steps.take k0).map (fun st => resultEntry (cmdOfStep st)),
         some notConnectedMsg) := by
  intro steps
  induction steps with
  | nil => intro k results k0 hlt _ _; simp at hlt
  | cons st rest ih =>
    intro k results k0 hlt hpre hfail
    cases k0 with
    | zero =>
      have h0 : ready k = false := by simpa using hfail
      simp [runSeqAux, h0, expectedActions]
    | succ k0' =>
      have h0 : ready k = true := by
        have := hpre 0 (by omega)
        simpa using this
      have hpre' : ∀ j, j < k0' → ready (k + 1 + j) = true := by
        intro j hj
        have := hpre (j + 1) (by omega)
        simpa [Nat.add_assoc, Nat.add_comm 1 j] using this
      have hfail' : ready (k + 1 + k0') = false := by
        have : k + (k0' + 1) = k + 1 + k0' := by omega
        rwa [this] at hfail
      have hlt' : k0' < rest.length := by simpa using hlt
      simp only [runSeqAux, h0, if_true, ih (k + 1) _ k0' hlt' hpre' hfail']
      simp [expectedActions, List.take, List.get]

/-- Claim C7, counterexample: the error report does not identify which step
failed.  On the spec demonstration sequence the run that fails at step 0 and
the run that fails at step 1 return the same error text, so the report
cannot name the failing step; it is the fixed sendToGodot message. -/
theorem sequence_error_report_not_step_specific :
    (runSeq (fun k => decide (k = 0)) demoSteps).isError = true ∧
    (runSeq (fun _ => false) demoSteps).isError = true ∧
    (runSeq (fun k => decide (k = 0)) demoSteps).actions ≠
      (runSeq (fun _ => false) demoSteps).actions ∧
    (runSeq (fun k => decide (k = 0)) demoSteps).text =
      (runSeq (fun _ => false) demoSteps).text := by
  refine ⟨?_, ?_, ?_, ?_⟩ <;> decide

/-- Claim C7 as amended: the handler executes the steps strictly in list
order, suspending for each truthy requested delay immediately before that
step's own send, and aggregates the trace of what was sent; if sending a
step fails, that step still performs its suspension but sends nothing, no
later step is executed, and the handler returns an error report carrying the
reason text, which is the same fixed message whatever the failing step. -/
theorem sequence_order_and_abort :
    (∀ (ready : Nat → Bool) (steps : List AnimStep),
      (∀ j, j < steps.length → ready j = true) →
      runSeq ready steps =
        { actions := expectedActions steps,
          text := "Executed animation sequence: " ++ String.intercalate (" → ")
            (steps.map (fun st => resultEntry (cmdOfStep st))),
          isError := false }) ∧
    (∀ (ready : Nat → Bool) (steps : List AnimStep) (k0 : Nat)
      (hlt : k0 < steps.length),
      (∀ j, j < k0 → ready j = true) → ready k0 = false →
      runSeq ready steps =
        { actions := expectedActions (steps.take k0) ++ delayActions (steps.get ⟨k0, hlt⟩),
          text := "Error: " ++ notConnectedMsg,
          isError := true }) := by
  constructor
  · intro ready steps h
    have := runSeqAux_all_ready ready steps 0 [] (by simpa using h)
    simp [runSeq, this]
  · intro ready steps k0 hlt hpre hfail
    have := runSeqAux_first_fail ready steps 0 [] k0 hlt (by simpa using hpre)
      (by simpa using hfail)
    simp [runSeq, this]

/-- Witness for claim C7: the demonstration sequence run with both steps
ready, and the same sequence failing at step 1. -/
theorem sequence_order_and_abort_witness :
    runSeq (fun _ => true) demoSteps =
      { actions := [SeqAction.send { clip := "wave", emotion := "neutral", lookAt := "user" },
          SeqAction.wait 2000,
          SeqAction.send { clip := "jump", emotion := "neutral", lookAt := "user" }],
        text := "Executed animation sequence: wave (neutral) → jump (neutral)",
        isError := false } ∧
    runSeq (fun k => decide (k = 0)) demoSteps =
      { actions := [SeqAction.send { clip := "wave", emotion := "neutral", lookAt := "user" },
          SeqAction.wait 2000],
        text := "Error: " ++ notConnectedMsg,
        isError := true } := by
  constructor
  · have h := sequence_order_and_abort.1 (fun _ => true) demoSteps
      (fun j _ => rfl)
    rw [h]
    decide
  · have h := sequence_order_and_abort.2 (fun k => decide (k = 0)) demoSteps 1
      (by decide) (by decide) (by decide)
    rw [h]
    decide

/-! ### Injectivity of decimal rendering

Correlation identifiers are cmd_ followed by the decimal counter, so their
distinctness reduces to injectivity of Nat.repr, proved here through an
explicit decimal decoder. -/

/-- Left-to-right decimal decoder: consumes digit characters, accumulating
the value. -/
def decodeDigits : List Char → Nat → Nat
  | [], acc => acc
  | c :: cs, acc => decodeDigits cs (acc * 10 + (c.toNat - 48))

/-- The value the decoder reaches after the decimal digits of n, starting
from accumulator acc. -/
def appendDecimal (acc n : Nat) : Nat :=
  if n < 10 then acc * 10 + n else appendDecimal acc (n / 10) * 10 + n % 10
termination_by n
decreasing_by exact Nat.div_lt_self (by omega) (by omega)

theorem appendDecimal_zero_acc : ∀ n, appendDecimal 0 n = n := by
  intro n
  induction n using Nat.strong_induction_on with
  | _ n ih =>
    rw [appendDecimal]
    by_cases h : n < 10
    · simp [h]
    · have hd : n / 10 < n := Nat.div_lt_self (by omega) (by omega)
      simp only [h, if_false, ih (n / 10) hd]
      omega

theorem digitChar_toNat (d : Nat) (hd : d < 10) :
    (Nat.digitChar d).toNat - 48 = d := by
  interval_cases d <;> rfl

theorem toDigitsCore_decode :
    ∀ fuel n ds acc, n < fuel →
      decodeDigits (Nat.toDigitsCore 10 fuel n ds) acc =
        decodeDigits ds (appendDecimal acc n) := by
  intro fuel
  induction fuel with
  | zero => intro n ds acc h; omega
  | succ f ih =>
    intro n ds acc h
    simp only [Nat.toDigitsCore]
    by_cases h10 : n / 10 = 0
    · have hn : n < 10 := by omega
      simp only [h10, if_true, decodeDigits, digitChar_toNat (n % 10) (by omega)]
      rw [appendDecimal]
      simp only [hn, if_true]
      have : n % 10 = n := Nat.mod_eq_of_lt hn
      rw [this]
    · have hn : ¬ n < 10 := by omega
      have hlt : n / 10 < f := by omega
      simp only [h10, if_false, ih (n / 10) _ acc hlt, decodeDigits,
        digitChar_toNat (n % 10) (by omega)]
      conv_rhs => rw [appendDecimal]
      rw [if_neg hn]

theorem decode_toDigits (n : Nat) : decodeDigits (Nat.toDigits 10 n) 0 = n := by
  have h := toDigitsCore_decode (n + 1) n [] 0 (by omega)
  simpa [Nat.toDigits, decodeDigits, appendDecimal_zero_acc] using h

theorem natRepr_injective : Function.Injective Nat.repr := by
  intro m n h
  have hdata : (Nat.toDigits 10 m) = (Nat.toDigits 10 n) := by
    have := congrArg String.data h
    simpa [Nat.repr, List.asString] using this
  have := congrArg (fun l => decodeDigits l 0) hdata
  simpa [decode_toDigits] using this

theorem mkId_injective : Function.Injective mkId := by
  intro m n h
  apply natRepr_injective
  have hdata := congrArg String.data h
  simp only [mkId, String.data_append] at hdata
  exact String.ext (List.append_cancel_left hdata)

/-! ### Event-driven pending-request lifecycle, from GodotConnection in
src/godot_connection.ts

The Node event loop serialises the socket handlers, the timer callbacks and
the promise executors, so the manager is modelled as a state machine stepped
by one event at a time.  The state carries the commandQueue keys (table),
the set of armed per-command timers, the counter, and two ghost logs: every
settlement call (resolve or reject, with its reason) and every table
deletion, plus the list of identifiers ever issued.  A timer that was
cleared can no longer fire, which is the only event validity condition. -/

/-- The way a pending promise is settled, following the reject and resolve
sites of the source. -/
inductive SettleReason
  | success
  | remoteError (msg : String)
  | timedOut
  | connectionClosed
  | notConnected
deriving DecidableEq, Repr

/-- State of one GodotConnection instance together with ghost logs. -/
structure GState where
  wsPresent : Bool
  wsOpen : Bool
  connected : Bool
  table : List String
  armed : List String
  commandId : Nat
  issued : List String
  settleLog : List (String × SettleReason)
  removeLog : List String
deriving DecidableEq, Repr

/-- Events serialised onto the manager: the socket opening, the synchronous
executor part of one sendCommand call, an incoming parsed response carrying
a correlation identifier, an incoming message with no usable correlation
identifier (malformed or informational), a per-command timer firing, the
socket close event, and a caller disconnect. -/
inductive GEvent
  | opened
  | send (type : String)
  | response (id : String) (ok : Bool) (msg : String)
  | info
  | timerFire (id : String)
  | closeEvt
  | disconnect
deriving DecidableEq, Repr

/-- Occurrences of an identifier in the settle log. -/
def countFst : List (String × SettleReason) → String → Nat
  | [], _ => 0
  | p :: l, id => (if p.1 = id then 1 else 0) + countFst l id

/-- Occurrences of an identifier in a plain list. -/
def countStr : List String → String → Nat
  | [], _ => 0
  | a :: l, id => (if a = id then 1 else 0) + countStr l id

/-- How many times the request with this identifier has been resolved or
rejected. -/
def settleCount (s : GState) (id : String) : Nat := countFst s.settleLog id

/-- How many times the entry with this identifier has been deleted from the
pending table. -/
def removeCount (s : GState) (id : String) : Nat := countStr s.removeLog id

/-- One serialised handler execution, following the source line by line.
The open handler sets the connected flag.  The send executor allocates
cmd_ counter, arms the timer and registers the entry; if the socket is not
OPEN it immediately clears the timer, deletes the entry and rejects.  The
message handler settles and deletes a matching entry and ignores everything
else.  A firing timer disarms itself and, when its entry is still present,
deletes it and rejects with the timeout error.  The close handler and
disconnect() clear every pending timer, reject every pending promise with
the connection-closed error and clear the table; disconnect() additionally
drops the socket and only acts when a socket exists. -/
def step (s : GState) : GEvent → GState
  | GEvent.opened =>
    { s with wsPresent := true, wsOpen := true, connected := true }
  | GEvent.send _ =>
    let id := mkId s.commandId
    if s.wsOpen then
      { s with commandId := s.commandId + 1, issued := id :: s.issued,
               table := id :: s.table, armed := id :: s.armed }
    else
      { s with commandId := s.commandId + 1, issued := id :: s.issued,
               settleLog := (id, SettleReason.notConnected) :: s.settleLog,
               removeLog := id :: s.removeLog }
  | GEvent.response id ok msg =>
    if id ∈ s.table then
      { s with table := s.table.erase id, armed := s.armed.erase id,
               settleLog := (id, if ok then SettleReason.success
                 else SettleReason.remoteError msg) :: s.settleLog,
               removeLog := id :: s.removeLog }
    else s
  | GEvent.info => s
  | GEvent.timerFire id =>
    if id ∈ s.table then
      { s with table := s.table.erase id, armed := s.armed.erase id,
               settleLog := (id, SettleReason.timedOut) :: s.settleLog,
               removeLog := id :: s.removeLog }
    else { s with armed := s.armed.erase id }
  | GEvent.closeEvt =>
    { s with wsOpen := false, connected := false,
             armed := s.armed.filter (fun x => !(decide (x ∈ s.table))),
             settleLog := (s.table.map (fun id => (id, SettleReason.connectionClosed)))
               ++ s.settleLog,
             removeLog := s.table ++ s.removeLog,
             table := [] }
  | GEvent.disconnect =>
    if s.wsPresent then
      { s with wsPresent := false, wsOpen := false, connected := false,
               armed := s.armed.filter (fun x => !(decide (x ∈ s.table))),
               settleLog := (s.table.map (fun id => (id, SettleReason.connectionClosed)))
                 ++ s.settleLog,
               removeLog := s.table ++ s.removeLog,
               table := [] }
    else s

/-- An event the environment can deliver in a state: a per-command timer can
fire only while it is armed. -/
def validB (s : GState) : GEvent → Bool
  | GEvent.timerFire id => s.armed.contains id
  | _ => true

/-- Left fold of step over an event list. -/
def runTrace (s : GState) : List GEvent → GState
  | [] => s
  | e :: es => runTrace (step s e) es

/-- Every event of the list is deliverable when its turn comes. -/
def validTraceB (s : GState) : List GEvent → Bool
  | [] => true
  | e :: es => validB s e && validTraceB (step s e) es

/-- Events that terminate the pending request with this identifier: its
matching response, its timeout, the socket close, and disconnect. -/
def terminatorB (id : String) : GEvent → Bool
  | GEvent.response i _ _ => i == id
  | GEvent.timerFire i => i == id
  | GEvent.closeEvt => true
  | GEvent.disconnect => true
  | _ => false

/-- Per-identifier lifecycle invariant: a request is either live, with its
table entry and its armed timer present and no settlement or removal yet, or
finished, with neither entry nor timer and with settlements and removals
balanced and at most one. -/
def goodId (s : GState) (id : String) : Prop :=
  (id ∈ s.table ∧ id ∈ s.armed ∧ settleCount s id = 0 ∧ removeCount s id = 0) ∨
  (id ∉ s.table ∧ id ∉ s.armed ∧ settleCount s id = removeCount s id ∧
    settleCount s id ≤ 1)

/-- Identifiers the instance has touched in any way. -/
def tracked (s : GState) (id : String) : Prop :=
  id ∈ s.table ∨ id ∈ s.armed ∨ id ∈ s.issued ∨
  settleCount s id ≠ 0 ∨ removeCount s id ≠ 0

/-- Global invariant of the connection manager. -/
def Inv (s : GState) : Prop :=
  s.table.Nodup ∧ s.armed.Nodup ∧ s.issued.Nodup ∧
  (∀ id, goodId s id) ∧
  (∀ id, tracked s id → ∃ k, k < s.commandId ∧ id = mkId k) ∧
  (s.wsPresent = false → ∀ id, id ∉ s.table) ∧
  (s.wsOpen = true → s.wsPresent = true)

/-- The initial state of a fresh GodotConnection. -/
def initState : GState :=
  { wsPresent := false, wsOpen := false, connected := false, table := [],
    armed := [], commandId := 0, issued := [], settleLog := [], removeLog := [] }

theorem countStr_append (l1 l2 : List String) (id : String) :
    countStr (l1 ++ l2) id = countStr l1 id + countStr l2 id := by
  induction l1 with
  | nil => simp [countStr]
  | cons a l ih => simp [countStr, ih]; omega

theorem countFst_map_append (l : List String) (r : SettleReason)
    (log : List (String × SettleReason)) (id : String) :
    countFst ((l.map (fun i => (i, r))) ++ log) id = countStr l id + countFst log id := by
  induction l with
  | nil => simp [countFst, countStr]
  | cons a l ih => simp [countFst, countStr, ih]; omega

theorem countStr_eq_zero (l : List String) (id : String) (h : id ∉ l) :
    countStr l id = 0 := by
  induction l with
  | nil => rfl
  | cons a l ih =>
    simp only [List.mem_cons, not_or] at h
    simp [countStr, ih h.2, Ne.symm h.1]

theorem countStr_eq_one (l : List String) (id : String) (hn : l.Nodup)
    (h : id ∈ l) : countStr l id = 1 := by
  induction l with
  | nil => simp at h
  | cons a l ih =>
    rcases List.mem_cons.mp h with rfl | hmem
    · have : id ∉ l := (List.nodup_cons.mp hn).1
      simp [countStr, countStr_eq_zero l id this]
    · have hne : a ≠ id := by
        rintro rfl
        exact (List.nodup_cons.mp hn).1 hmem
      simp [countStr, hne, ih (List.nodup_cons.mp hn).2 hmem]

theorem mem_of_countStr_ne_zero {l : List String} {id : String}
    (h : countStr l id ≠ 0) : id ∈ l := by
  by_contra hmem
  exact h (countStr_eq_zero l id hmem)

theorem not_tracked_fresh {s : GState}
    (hK : ∀ id, tracked s id → ∃ k, k < s.commandId ∧ id = mkId k) :
    ¬ tracked s (mkId s.commandId) := by
  intro htr
  obtain ⟨k, hk, heq⟩ := hK _ htr
  have := mkId_injective heq
  omega

theorem inv_step_opened {s : GState} (hInv : Inv s) :
    Inv (step s GEvent.opened) := by
  obtain ⟨hT, hA, hI, hG, hK, hW, hO⟩ := hInv
  exact ⟨hT, hA, hI, hG, hK, fun h => Bool.noConfusion h, fun _ => rfl⟩

theorem countFst_cons_ne {a : String} {r : SettleReason}
    {log : List (String × SettleReason)} {id : String} (h : a ≠ id) :
    countFst ((a, r) :: log) id = countFst log id := by
  simp [countFst, h]

theorem countFst_cons_self {a : String} {r : SettleReason}
    {log : List (String × SettleReason)} :
    countFst ((a, r) :: log) a = 1 + countFst log a := by
  simp [countFst]

theorem countStr_cons_ne {a id : String} {l : List String} (h : a ≠ id) :
    countStr (a :: l) id = countStr l id := by
  simp [countStr, h]

theorem countStr_cons_self {a : String} {l : List String} :
    countStr (a :: l) a = 1 + countStr l a := by
  simp [countStr]

theorem inv_step_send {s : GState} (ty : String) (hInv : Inv s) :
    Inv (step s (GEvent.send ty)) := by
  obtain ⟨hT, hA, hI, hG, hK, hW, hO⟩ := hInv
  have hfresh := not_tracked_fresh hK
  simp only [tracked, not_or, not_not] at hfresh
  obtain ⟨hfT, hfA, hfI, hfS, hfR⟩ := hfresh
  have hfS' : countFst s.settleLog (mkId s.commandId) = 0 := hfS
  have hfR' : countStr s.removeLog (mkId s.commandId) = 0 := hfR
  simp only [step]
  by_cases hws : s.wsOpen = true
  · rw [if_pos hws]
    refine ⟨List.nodup_cons.mpr ⟨hfT, hT⟩, List.nodup_cons.mpr ⟨hfA, hA⟩,
      List.nodup_cons.mpr ⟨hfI, hI⟩, ?_, ?_, ?_, ?_⟩
    · intro id
      by_cases hid : id = mkId s.commandId
      · subst hid
        exact Or.inl ⟨List.mem_cons_self _ _, List.mem_cons_self _ _, hfS, hfR⟩
      · rcases hG id with ⟨h1, h2, h3, h4⟩ | ⟨h1, h2, h3, h4⟩
        · exact Or.inl ⟨List.mem_cons_of_mem _ h1, List.mem_cons_of_mem _ h2, h3, h4⟩
        · refine Or.inr ⟨?_, ?_, h3, h4⟩
          · intro hmem
            rcases List.mem_cons.mp hmem with h5 | h5
            · exact hid h5
            · exact h1 h5
          · intro hmem
            rcases List.mem_cons.mp hmem with h5 | h5
            · exact hid h5
            · exact h2 h5
    · intro id htr
      by_cases hid : id = mkId s.commandId
      · exact ⟨s.commandId, Nat.lt_succ_self _, hid⟩
      · have htr' : tracked s id := by
          rcases htr with h | h | h | h | h
          · rcases List.mem_cons.mp h with h1 | h1
            · exact absurd h1 hid
            · exact Or.inl h1
          · rcases List.mem_cons.mp h with h1 | h1
            · exact absurd h1 hid
            · exact Or.inr (Or.inl h1)
          · rcases List.mem_cons.mp h with h1 | h1
            · exact absurd h1 hid
            · exact Or.inr (Or.inr (Or.inl h1))
          · exact Or.inr (Or.inr (Or.inr (Or.inl h)))
          · exact Or.inr (Or.inr (Or.inr (Or.inr h)))
        obtain ⟨k, hk, heq⟩ := hK id htr'
        exact ⟨k, Nat.lt_succ_of_lt hk, heq⟩
    · intro hp
      exact Bool.noConfusion ((hO hws).symm.trans hp)
    · intro _
      exact hO hws
  · rw [if_neg hws]
    refine ⟨hT, hA, List.nodup_cons.mpr ⟨hfI, hI⟩, ?_, ?_, ?_, ?_⟩
    · intro id
      by_cases hid : id = mkId s.commandId
      · subst hid
        refine Or.inr ⟨hfT, hfA, ?_, ?_⟩
        · show countFst ((mkId s.commandId, SettleReason.notConnected) :: s.settleLog)
            (mkId s.commandId) = countStr (mkId s.commandId :: s.removeLog) (mkId s.commandId)
          rw [countFst_cons_self, countStr_cons_self, hfS', hfR']
        · show countFst ((mkId s.commandId, SettleReason.notConnected) :: s.settleLog)
            (mkId s.commandId) ≤ 1
          rw [countFst_cons_self, hfS']
      · rcases hG id with ⟨h1, h2, h3, h4⟩ | ⟨h1, h2, h3, h4⟩
        · refine Or.inl ⟨h1, h2, ?_, ?_⟩
          · show countFst ((mkId s.commandId, SettleReason.notConnected) ::
              s.settleLog) id = 0
            rw [countFst_cons_ne (Ne.symm hid)]
            exact h3
          · show countStr (mkId s.commandId :: s.removeLog) id = 0
            rw [countStr_cons_ne (Ne.symm hid)]
            exact h4
        · refine Or.inr ⟨h1, h2, ?_, ?_⟩
          · show countFst ((mkId s.commandId, SettleReason.notConnected) ::
              s.settleLog) id = countStr (mkId s.commandId :: s.removeLog) id
            rw [countFst_cons_ne (Ne.symm hid), countStr_cons_ne (Ne.symm hid)]
            exact h3
          · show countFst ((mkId s.commandId, SettleReason.notConnected) ::
              s.settleLog) id ≤ 1
            rw [countFst_cons_ne (Ne.symm hid)]
            exact h4
    · intro id htr
      by_cases hid : id = mkId s.commandId
      · exact ⟨s.commandId, Nat.lt_succ_self _, hid⟩
      · have htr' : tracked s id := by
          rcases htr with h | h | h | h | h
          · exact Or.inl h
          · exact Or.inr (Or.inl h)
          · rcases List.mem_cons.mp h with h1 | h1
            · exact absurd h1 hid
            · exact Or.inr (Or.inr (Or.inl h1))
          · have h2 : countFst ((mkId s.commandId, SettleReason.notConnected) ::
                s.settleLog) id ≠ 0 := h
            rw [countFst_cons_ne (Ne.symm hid)] at h2
            exact Or.inr (Or.inr (Or.inr (Or.inl h2)))
          · have h2 : countStr (mkId s.commandId :: s.removeLog) id ≠ 0 := h
            rw [countStr_cons_ne (Ne.symm hid)] at h2
            exact Or.inr (Or.inr (Or.inr (Or.inr h2)))
        obtain ⟨k, hk, heq⟩ := hK id htr'
        exact ⟨k, Nat.lt_succ_of_lt hk, heq⟩
    · intro hp
      exact hW hp
    · intro ho
      exact hO ho

theorem inv_settle_remove {s : GState} {id0 : String} (hInv : Inv s)
    (hmem : id0 ∈ s.table) (r : SettleReason) :
    Inv { s with
          table := s.table.erase id0,
          armed := s.armed.erase id0,
          settleLog := (id0, r) :: s.settleLog,
          removeLog := id0 :: s.removeLog } := by
  obtain ⟨hT, hA, hI, hG, hK, hW, hO⟩ := hInv
  have hcase : settleCount s id0 = 0 ∧ removeCount s id0 = 0 := by
    rcases hG id0 with ⟨_, _, h3, h4⟩ | ⟨h1, _, _, _⟩
    · exact ⟨h3, h4⟩
    · exact absurd hmem h1
  have h3' : countFst s.settleLog id0 = 0 := hcase.1
  have h4' : countStr s.removeLog id0 = 0 := hcase.2
  refine ⟨hT.erase id0, hA.erase id0, hI, ?_, ?_, ?_, hO⟩
  · intro id
    by_cases hid : id = id0
    · subst hid
      refine Or.inr ⟨?_, ?_, ?_, ?_⟩
      · intro h
        exact (hT.mem_erase_iff.mp h).1 rfl
      · intro h
        exact (hA.mem_erase_iff.mp h).1 rfl
      · show countFst ((id, r) :: s.settleLog) id = countStr (id :: s.removeLog) id
        rw [countFst_cons_self, countStr_cons_self, h3', h4']
      · show countFst ((id, r) :: s.settleLog) id ≤ 1
        rw [countFst_cons_self, h3']
    · rcases hG id with ⟨h1, h2, h3, h4⟩ | ⟨h1, h2, h3, h4⟩
      · refine Or.inl ⟨(List.mem_erase_of_ne hid).mpr h1,
          (List.mem_erase_of_ne hid).mpr h2, ?_, ?_⟩
        · show countFst ((id0, r) :: s.settleLog) id = 0
          rw [countFst_cons_ne (Ne.symm hid)]
          exact h3
        · show countStr (id0 :: s.removeLog) id = 0
          rw [countStr_cons_ne (Ne.symm hid)]
          exact h4
      · refine Or.inr ⟨fun h => h1 (List.mem_of_mem_erase h),
          fun h => h2 (List.mem_of_mem_erase h), ?_, ?_⟩
        · show countFst ((id0, r) :: s.settleLog) id = countStr (id0 :: s.removeLog) id
          rw [countFst_cons_ne (Ne.symm hid), countStr_cons_ne (Ne.symm hid)]
          exact h3
        · show countFst ((id0, r) :: s.settleLog) id ≤ 1
          rw [countFst_cons_ne (Ne.symm hid)]
          exact h4
  · intro id htr
    apply hK
    by_cases hid : id = id0
    · subst hid
      exact Or.inl hmem
    · rcases htr with h | h | h | h | h
      · exact Or.inl (List.mem_of_mem_erase h)
      · exact Or.inr (Or.inl (List.mem_of_mem_erase h))
      · exact Or.inr (Or.inr (Or.inl h))
      · have h2 : countFst ((id0, r) :: s.settleLog) id ≠ 0 := h
        rw [countFst_cons_ne (Ne.symm hid)] at h2
        exact Or.inr (Or.inr (Or.inr (Or.inl h2)))
      · have h2 : countStr (id0 :: s.removeLog) id ≠ 0 := h
        rw [countStr_cons_ne (Ne.symm hid)] at h2
        exact Or.inr (Or.inr (Or.inr (Or.inr h2)))
  · intro hp
    exact (hW hp id0 hmem).elim

theorem inv_step_response {s : GState} (id0 : String) (ok : Bool) (msg : String)
    (hInv : Inv s) : Inv (step s (GEvent.response id0 ok msg)) := by
  simp only [step]
  by_cases hmem : id0 ∈ s.table
  · rw [if_pos hmem]
    exact inv_settle_remove hInv hmem _
  · rw [if_neg hmem]
    exact hInv

theorem inv_step_timer {s : GState} (id0 : String) (hInv : Inv s) :
    Inv (step s (GEvent.timerFire id0)) := by
  simp only [step]
  by_cases hmem : id0 ∈ s.table
  · rw [if_pos hmem]
    exact inv_settle_remove hInv hmem _
  · rw [if_neg hmem]
    obtain ⟨hT, hA, hI, hG, hK, hW, hO⟩ := hInv
    refine ⟨hT, hA.erase id0, hI, ?_, ?_, hW, hO⟩
    · intro id
      by_cases hid : id = id0
      · subst hid
        rcases hG id with ⟨h1, _, _, _⟩ | ⟨h1, h2, h3, h4⟩
        · exact absurd h1 hmem
        · exact Or.inr ⟨h1, fun h => h2 (List.mem_of_mem_erase h), h3, h4⟩
      · rcases hG id with ⟨h1, h2, h3, h4⟩ | ⟨h1, h2, h3, h4⟩
        · exact Or.inl ⟨h1, (List.mem_erase_of_ne hid).mpr h2, h3, h4⟩
        · exact Or.inr ⟨h1, fun h => h2 (List.mem_of_mem_erase h), h3, h4⟩
    · intro id htr
      apply hK
      rcases htr with h | h | h | h | h
      · exact Or.inl h
      · exact Or.inr (Or.inl (List.mem_of_mem_erase h))
      · exact Or.inr (Or.inr (Or.inl h))
      · exact Or.inr (Or.inr (Or.inr (Or.inl h)))
      · exact Or.inr (Or.inr (Or.inr (Or.inr h)))

theorem inv_cleanup {s : GState} (hInv : Inv s) (b : Bool) :
    Inv { s with
          wsPresent := b,
          wsOpen := false,
          connected := false,
          armed := s.armed.filter (fun x => !(decide (x ∈ s.table))),
          settleLog := (s.table.map (fun i => (i, SettleReason.connectionClosed)))
            ++ s.settleLog,
          removeLog := s.table ++ s.removeLog,
          table := [] } := by
  obtain ⟨hT, hA, hI, hG, hK, hW, hO⟩ := hInv
  have harmed : ∀ id, id ∉ s.armed.filter (fun x => !(decide (x ∈ s.table))) := by
    intro id h
    obtain ⟨hin, hp⟩ := List.mem_filter.mp h
    have hnot : id ∉ s.table := by
      simpa using hp
    rcases hG id with ⟨h1, _, _, _⟩ | ⟨_, h2, _, _⟩
    · exact hnot h1
    · exact h2 hin
  refine ⟨List.nodup_nil, hA.filter _, hI, ?_, ?_, ?_, ?_⟩
  · intro id
    refine Or.inr ⟨List.not_mem_nil id, harmed id, ?_, ?_⟩
    · show countFst ((s.table.map (fun i => (i, SettleReason.connectionClosed)))
          ++ s.settleLog) id = countStr (s.table ++ s.removeLog) id
      rw [countFst_map_append, countStr_append]
      by_cases hmem : id ∈ s.table
      · rcases hG id with ⟨_, _, h3, h4⟩ | ⟨h1, _, _, _⟩
        · have h3' : countFst s.settleLog id = 0 := h3
          have h4' : countStr s.removeLog id = 0 := h4
          rw [h3', h4']
        · exact absurd hmem h1
      · rcases hG id with ⟨h1, _, _, _⟩ | ⟨_, _, h3, _⟩
        · exact absurd h1 hmem
        · have h3' : countFst s.settleLog id = countStr s.removeLog id := h3
          rw [h3']
    · show countFst ((s.table.map (fun i => (i, SettleReason.connectionClosed)))
          ++ s.settleLog) id ≤ 1
      rw [countFst_map_append]
      by_cases hmem : id ∈ s.table
      · rcases hG id with ⟨_, _, h3, _⟩ | ⟨h1, _, _, _⟩
        · have h3' : countFst s.settleLog id = 0 := h3
          rw [countStr_eq_one s.table id hT hmem, h3']
        · exact absurd hmem h1
      · rcases hG id with ⟨h1, _, _, _⟩ | ⟨_, _, _, h4⟩
        · exact absurd h1 hmem
        · have h4' : countFst s.settleLog id ≤ 1 := h4
          rw [countStr_eq_zero s.table id hmem]
          omega
  · intro id htr
    apply hK
    rcases htr with h | h | h | h | h
    · exact absurd h (List.not_mem_nil id)
    · exact Or.inr (Or.inl (List.mem_filter.mp h).1)
    · exact Or.inr (Or.inr (Or.inl h))
    · have h2 : countStr s.table id + countFst s.settleLog id ≠ 0 := by
        have hh : countFst ((s.table.map (fun i => (i, SettleReason.connectionClosed)))
            ++ s.settleLog) id ≠ 0 := h
        rwa [countFst_map_append] at hh
      by_cases hz : countStr s.table id = 0
      · rw [hz] at h2
        exact Or.inr (Or.inr (Or.inr (Or.inl
          (show countFst s.settleLog id ≠ 0 by omega))))
      · exact Or.inl (mem_of_countStr_ne_zero hz)
    · have h2 : countStr s.table id + countStr s.removeLog id ≠ 0 := by
        have hh : countStr (s.table ++ s.removeLog) id ≠ 0 := h
        rwa [countStr_append] at hh
      by_cases hz : countStr s.table id = 0
      · rw [hz] at h2
        exact Or.inr (Or.inr (Or.inr (Or.inr
          (show countStr s.removeLog id ≠ 0 by omega))))
      · exact Or.inl (mem_of_countStr_ne_zero hz)
  · intro _
    exact List.not_mem_nil
  · intro ho
    exact Bool.noConfusion ho

theorem inv_step_close {s : GState} (hInv : Inv s) :
    Inv (step s GEvent.closeEvt) :=
  inv_cleanup hInv s.wsPresent

theorem inv_step_disconnect {s : GState} (hInv : Inv s) :
    Inv (step s GEvent.disconnect) := by
  simp only [step]
  by_cases hws : s.wsPresent = true
  · rw [if_pos hws]
    exact inv_cleanup hInv false
  · rw [if_neg hws]
    exact hInv

theorem inv_step {s : GState} (e : GEvent) (hInv : Inv s) : Inv (step s e) := by
  cases e with
  | opened => exact inv_step_opened hInv
  | send ty => exact inv_step_send ty hInv
  | response id ok msg => exact inv_step_response id ok msg hInv
  | info => exact hInv
  | timerFire id => exact inv_step_timer id hInv
  | closeEvt => exact inv_step_close hInv
  | disconnect => exact inv_step_disconnect hInv

theorem inv_run (s : GState) (es : List GEvent) (hInv : Inv s) :
    Inv (runTrace s es) := by
  induction es generalizing s with
  | nil => exact hInv
  | cons e es ih => exact ih (step s e) (inv_step e hInv)

theorem countFst_le_cons (p : String × SettleReason)
    (log : List (String × SettleReason)) (id : String) :
    countFst log id ≤ countFst (p :: log) id := by
  cases p
  simp only [countFst]
  omega

theorem settleCount_mono_step (s : GState) (e : GEvent) (id : String) :
    settleCount s id ≤ settleCount (step s e) id := by
  cases e with
  | opened => exact Nat.le_refl _
  | send ty =>
    simp only [step]
    by_cases hws : s.wsOpen = true
    · rw [if_pos hws]
      exact Nat.le_refl _
    · rw [if_neg hws]
      exact countFst_le_cons _ _ _
  | response id0 ok msg =>
    simp only [step]
    by_cases hmem : id0 ∈ s.table
    · rw [if_pos hmem]
      exact countFst_le_cons _ _ _
    · rw [if_neg hmem]
  | info => exact Nat.le_refl _
  | timerFire id0 =>
    simp only [step]
    by_cases hmem : id0 ∈ s.table
    · rw [if_pos hmem]
      exact countFst_le_cons _ _ _
    · rw [if_neg hmem]
      exact Nat.le_refl _
  | closeEvt =>
    show countFst s.settleLog id ≤ countFst
      ((s.table.map (fun i => (i, SettleReason.connectionClosed))) ++ s.settleLog) id
    rw [countFst_map_append]
    omega
  | disconnect =>
    simp only [step]
    by_cases hws : s.wsPresent = true
    · rw [if_pos hws]
      show countFst s.settleLog id ≤ countFst
        ((s.table.map (fun i => (i, SettleReason.connectionClosed))) ++ s.settleLog) id
      rw [countFst_map_append]
      omega
    · rw [if_neg hws]

theorem settleCount_mono_run (s : GState) (es : List GEvent) (id : String) :
    settleCount s id ≤ settleCount (runTrace s es) id := by
  induction es generalizing s with
  | nil => exact Nat.le_refl _
  | cons e es ih =>
    exact Nat.le_trans (settleCount_mono_step s e id) (ih (step s e))

theorem terminator_settles {s : GState} {id : String} {e : GEvent}
    (hInv : Inv s) (hpend : id ∈ s.table) (hterm : terminatorB id e = true) :
    1 ≤ settleCount (step s e) id := by
  obtain ⟨hT, _, _, _, _, hW, _⟩ := hInv
  cases e with
  | opened => exact Bool.noConfusion hterm
  | send ty => exact Bool.noConfusion hterm
  | info => exact Bool.noConfusion hterm
  | response id0 ok msg =>
    have hid : id0 = id := by
      have : (id0 == id) = true := hterm
      exact of_decide_eq_true this
    subst hid
    simp only [step]
    rw [if_pos hpend]
    show 1 ≤ countFst ((id0, if ok = true then SettleReason.success
      else SettleReason.remoteError msg) :: s.settleLog) id0
    rw [countFst_cons_self]
    omega
  | timerFire id0 =>
    have hid : id0 = id := by
      have : (id0 == id) = true := hterm
      exact of_decide_eq_true this
    subst hid
    simp only [step]
    rw [if_pos hpend]
    show 1 ≤ countFst ((id0, SettleReason.timedOut) :: s.settleLog) id0
    rw [countFst_cons_self]
    omega
  | closeEvt =>
    show 1 ≤ countFst
      ((s.table.map (fun i => (i, SettleReason.connectionClosed))) ++ s.settleLog) id
    rw [countFst_map_append, countStr_eq_one s.table id hT hpend]
    omega
  | disconnect =>
    simp only [step]
    by_cases hws : s.wsPresent = true
    · rw [if_pos hws]
      show 1 ≤ countFst
        ((s.table.map (fun i => (i, SettleReason.connectionClosed))) ++ s.settleLog) id
      rw [countFst_map_append, countStr_eq_one s.table id hT hpend]
      omega
    · have hfalse : s.wsPresent = false := by
        revert hws
        cases s.wsPresent <;> simp
      exact absurd hpend (hW hfalse id)

theorem pending_preserved {s : GState} {id : String} {e : GEvent}
    (hterm : terminatorB id e = false) (hpend : id ∈ s.table) :
    id ∈ (step s e).table := by
  cases e with
  | opened => exact hpend
  | info => exact hpend
  | send ty =>
    simp only [step]
    by_cases hws : s.wsOpen = true
    · rw [if_pos hws]
      exact List.mem_cons_of_mem _ hpend
    · rw [if_neg hws]
      exact hpend
  | response id0 ok msg =>
    have hid : id ≠ id0 := by
      intro h
      have h2 : terminatorB id (GEvent.response id0 ok msg) = true := by
        show (id0 == id) = true
        rw [h]
        simp
      rw [hterm] at h2
      exact Bool.noConfusion h2
    simp only [step]
    by_cases hmem : id0 ∈ s.table
    · rw [if_pos hmem]
      exact (List.mem_erase_of_ne hid).mpr hpend
    · rw [if_neg hmem]
      exact hpend
  | timerFire id0 =>
    have hid : id ≠ id0 := by
      intro h
      have h2 : terminatorB id (GEvent.timerFire id0) = true := by
        show (id0 == id) = true
        rw [h]
        simp
      rw [hterm] at h2
      exact Bool.noConfusion h2
    simp only [step]
    by_cases hmem : id0 ∈ s.table
    · rw [if_pos hmem]
      exact (List.mem_erase_of_ne hid).mpr hpend
    · rw [if_neg hmem]
      exact hpend
  | closeEvt => exact Bool.noConfusion hterm
  | disconnect => exact Bool.noConfusion hterm

theorem pending_term_run {s : GState} {es : List GEvent} {id : String}
    (hInv : Inv s) (hpend : id ∈ s.table)
    (hterm : ∃ e, e ∈ es ∧ terminatorB id e = true) :
    1 ≤ settleCount (runTrace s es) id := by
  induction es generalizing s with
  | nil =>
    obtain ⟨e0, he0, _⟩ := hterm
    exact absurd he0 (List.not_mem_nil e0)
  | cons e es ih =>
    obtain ⟨e0, he0, ht0⟩ := hterm
    by_cases hte : terminatorB id e = true
    · have h1 := terminator_settles hInv hpend hte
      exact Nat.le_trans h1 (settleCount_mono_run (step s e) es id)
    · have hef : terminatorB id e = false := by
        revert hte
        cases terminatorB id e <;> simp
      have hpend' := pending_preserved hef hpend
      have hmem : e0 ∈ es := by
        rcases List.mem_cons.mp he0 with rfl | h
        · rw [ht0] at hef
          exact Bool.noConfusion hef
        · exact h
      exact ih (inv_step e hInv) hpend' ⟨e0, hmem, ht0⟩

/-- Claim C1: along any deliverable event trace, every request is settled at
most once and its table entry removed exactly as often as it is settled; and
a request pending at the start of the trace that meets a terminating event
(its matching response, its timeout firing, a socket close, or a disconnect)
ends up settled exactly once with its entry removed exactly once, however
many other requests are outstanding in the same trace. -/
theorem sendCommand_exactly_one_settlement (s : GState) (es : List GEvent)
    (id : String) (hInv : Inv s) (_hv : validTraceB s es = true) :
    settleCount (runTrace s es) id ≤ 1 ∧
    removeCount (runTrace s es) id = settleCount (runTrace s es) id ∧
    (id ∈ s.table → (∃ e, e ∈ es ∧ terminatorB id e = true) →
      settleCount (runTrace s es) id = 1 ∧ removeCount (runTrace s es) id = 1) := by
  obtain ⟨_, _, _, hG, _, _, _⟩ := inv_run s es hInv
  have hgood := hG id
  refine ⟨?_, ?_, ?_⟩
  · rcases hgood with ⟨_, _, h3, _⟩ | ⟨_, _, _, h4⟩
    · rw [h3]
      omega
    · exact h4
  · rcases hgood with ⟨_, _, h3, h4⟩ | ⟨_, _, h3, _⟩
    · rw [h3, h4]
    · exact h3.symm
  · intro hpend hterm
    have h1 := pending_term_run hInv hpend hterm
    rcases hgood with ⟨_, _, h3, _⟩ | ⟨_, _, h3, h4⟩
    · rw [h3] at h1
      omega
    · constructor <;> omega

/-- Invariant of the freshly constructed connection. -/
theorem inv_init : Inv initState := by
  refine ⟨List.nodup_nil, List.nodup_nil, List.nodup_nil, ?_, ?_, ?_, ?_⟩
  · intro id
    exact Or.inr ⟨List.not_mem_nil id, List.not_mem_nil id, rfl, Nat.zero_le 1⟩
  · intro id htr
    rcases htr with h | h | h | h | h
    · exact absurd h (List.not_mem_nil id)
    · exact absurd h (List.not_mem_nil id)
    · exact absurd h (List.not_mem_nil id)
    · exact absurd rfl h
    · exact absurd rfl h
  · intro _ id
    exact List.not_mem_nil id
  · intro h
    exact Bool.noConfusion h

/-- Witness for claim C1: open the socket, send one command, then receive
its matching response; the request cmd_0 is settled exactly once and removed
exactly once. -/
theorem sendCommand_exactly_one_settlement_witness :
    settleCount (runTrace (runTrace initState
        [GEvent.opened, GEvent.send ("avatar_control")])
        [GEvent.response (mkId 0) true ("ok")]) (mkId 0) = 1 ∧
    removeCount (runTrace (runTrace initState
        [GEvent.opened, GEvent.send ("avatar_control")])
        [GEvent.response (mkId 0) true ("ok")]) (mkId 0) = 1 :=
  (sendCommand_exactly_one_settlement
    (runTrace initState [GEvent.opened, GEvent.send ("avatar_control")])
    [GEvent.response (mkId 0) true ("ok")] (mkId 0)
    (inv_run initState [GEvent.opened, GEvent.send ("avatar_control")] inv_init)
    (by decide)).2.2 (by decide)
    ⟨GEvent.response (mkId 0) true ("ok"), by decide, by decide⟩

/-- Facts about the common cleanup performed by the close handler and by
disconnect(): every pending request is rejected with the connection-closed
reason exactly once and its timer is no longer armed. -/
theorem cleanup_facts {s : GState} (hInv : Inv s) :
    ∀ id, id ∈ s.table →
      (id, SettleReason.connectionClosed) ∈
        ((s.table.map (fun i => (i, SettleReason.connectionClosed))) ++ s.settleLog) ∧
      countFst ((s.table.map (fun i => (i, SettleReason.connectionClosed)))
        ++ s.settleLog) id = 1 ∧
      id ∉ s.armed.filter (fun x => !(decide (x ∈ s.table))) := by
  obtain ⟨hT, _, _, hG, _, _, _⟩ := hInv
  intro id hmem
  refine ⟨?_, ?_, ?_⟩
  · exact List.mem_append.mpr (Or.inl
      (List.mem_map_of_mem (fun i => (i, SettleReason.connectionClosed)) hmem))
  · rw [countFst_map_append, countStr_eq_one s.table id hT hmem]
    rcases hG id with ⟨_, _, h3, _⟩ | ⟨h1, _, _, _⟩
    · have h3' : countFst s.settleLog id = 0 := h3
      rw [h3']
    · exact absurd hmem h1
  · intro h
    have hp := (List.mem_filter.mp h).2
    have hp2 : decide (id ∈ s.table) = false := by simpa using hp
    exact (of_decide_eq_false hp2) hmem

/-- Claim C3: disconnect() on a live socket empties the pending table,
reaches the disconnected state, rejects every pending request with the
connection-closed reason exactly once and cancels its timer; the close
handler performs the identical cleanup when the socket closes
unexpectedly. -/
theorem disconnect_purges_pending (s : GState) (hInv : Inv s)
    (hws : s.wsPresent = true) :
    (step s GEvent.disconnect).table = [] ∧
    (step s GEvent.disconnect).connected = false ∧
    (step s GEvent.disconnect).wsPresent = false ∧
    (∀ id, id ∈ s.table →
      (id, SettleReason.connectionClosed) ∈ (step s GEvent.disconnect).settleLog ∧
      settleCount (step s GEvent.disconnect) id = 1 ∧
      id ∉ (step s GEvent.disconnect).armed) ∧
    (step s GEvent.closeEvt).table = [] ∧
    (step s GEvent.closeEvt).connected = false ∧
    (∀ id, id ∈ s.table →
      (id, SettleReason.connectionClosed) ∈ (step s GEvent.closeEvt).settleLog ∧
      settleCount (step s GEvent.closeEvt) id = 1 ∧
      id ∉ (step s GEvent.closeEvt).armed) := by
  have hfacts := cleanup_facts hInv
  have hstep : step s GEvent.disconnect =
      { s with
        wsPresent := false,
        wsOpen := false,
        connected := false,
        armed := s.armed.filter (fun x => !(decide (x ∈ s.table))),
        settleLog := (s.table.map (fun i => (i, SettleReason.connectionClosed)))
          ++ s.settleLog,
        removeLog := s.table ++ s.removeLog,
        table := [] } := by
    simp only [step, hws, if_true]
  refine ⟨by rw [hstep], by rw [hstep], by rw [hstep], ?_, rfl, rfl, ?_⟩
  · intro id hmem
    rw [hstep]
    exact hfacts id hmem
  · intro id hmem
    exact hfacts id hmem

/-- Witness for claim C3: after opening and sending one command, disconnect
purges the single pending request cmd_0. -/
theorem disconnect_purges_pending_witness :
    (step (runTrace initState [GEvent.opened, GEvent.send ("avatar_control")])
      GEvent.disconnect).table = [] ∧
    settleCount (step (runTrace initState
      [GEvent.opened, GEvent.send ("avatar_control")]) GEvent.disconnect) (mkId 0) = 1 := by
  have h := disconnect_purges_pending
    (runTrace initState [GEvent.opened, GEvent.send ("avatar_control")])
    (inv_run initState [GEvent.opened, GEvent.send ("avatar_control")] inv_init)
    (by decide)
  exact ⟨h.1, (h.2.2.2.1 (mkId 0) (by decide)).2.1⟩

/-- Claim C6: an incoming payload that is malformed or carries no usable
correlation identifier leaves the whole state untouched, and so does a
parsed response whose correlation identifier matches no pending entry;
no pending request is settled and no error surfaces. -/
theorem unmatched_message_ignored (s : GState) (id : String) (ok : Bool)
    (msg : String) (h : id ∉ s.table) :
    step s GEvent.info = s ∧ step s (GEvent.response id ok msg) = s := by
  refine ⟨rfl, ?_⟩
  simp only [step]
  rw [if_neg h]

/-- Witness for claim C6: a malformed payload and a response with an unknown
identifier arriving at a connection with one other pending request. -/
theorem unmatched_message_ignored_witness :
    step (runTrace initState [GEvent.opened, GEvent.send ("avatar_control")])
      GEvent.info =
      runTrace initState [GEvent.opened, GEvent.send ("avatar_control")] ∧
    step (runTrace initState [GEvent.opened, GEvent.send ("avatar_control")])
      (GEvent.response ("cmd_99") true ("late")) =
      runTrace initState [GEvent.opened, GEvent.send ("avatar_control")] :=
  unmatched_message_ignored
    (runTrace initState [GEvent.opened, GEvent.send ("avatar_control")])
    ("cmd_99") true ("late") (by decide)

theorem commandId_mono_step (s : GState) (e : GEvent) :
    s.commandId ≤ (step s e).commandId := by
  cases e with
  | opened => exact Nat.le_refl _
  | send ty =>
    simp only [step]
    by_cases hws : s.wsOpen = true
    · rw [if_pos hws]
      exact Nat.le_succ _
    · rw [if_neg hws]
      exact Nat.le_succ _
  | response id0 ok msg =>
    simp only [step]
    by_cases hmem : id0 ∈ s.table
    · rw [if_pos hmem]
    · rw [if_neg hmem]
  | info => exact Nat.le_refl _
  | timerFire id0 =>
    simp only [step]
    by_cases hmem : id0 ∈ s.table
    · rw [if_pos hmem]
    · rw [if_neg hmem]
  | closeEvt => exact Nat.le_refl _
  | disconnect =>
    simp only [step]
    by_cases hws : s.wsPresent = true
    · rw [if_pos hws]
    · rw [if_neg hws]

/-- Claim C10: correlation identifiers are cmd_ followed by a counter that
only ever increases, so distinct counter values give distinct identifiers
and the identifiers issued over the lifetime of one connection instance are
pairwise distinct, globally and not merely while outstanding. -/
theorem correlation_ids_distinct (s : GState) (es : List GEvent)
    (hInv : Inv s) (_hv : validTraceB s es = true) :
    (runTrace s es).issued.Nodup ∧
    s.commandId ≤ (runTrace s es).commandId ∧
    Function.Injective mkId := by
  refine ⟨?_, ?_, mkId_injective⟩
  · exact (inv_run s es hInv).2.2.1
  · induction es generalizing s with
    | nil => exact Nat.le_refl _
    | cons e es ih =>
      exact Nat.le_trans (commandId_mono_step s e) (ih (step s e) (inv_step e hInv)
        (by
          have hv' := _hv
          simp only [validTraceB, Bool.and_eq_true] at hv'
          exact hv'.2))

/-- Witness for claim C10: two sends with an interleaved response and a
reissued send still yield pairwise distinct identifiers. -/
theorem correlation_ids_distinct_witness :
    (runTrace initState [GEvent.opened, GEvent.send ("avatar_control"),
      GEvent.send ("avatar_control"), GEvent.response (mkId 0) true ("ok"),
      GEvent.send ("ping")]).issued.Nodup :=
  (correlation_ids_distinct initState [GEvent.opened, GEvent.send ("avatar_control"),
    GEvent.send ("avatar_control"), GEvent.response (mkId 0) true ("ok"),
    GEvent.send ("ping")] inv_init (by decide)).1

end LiveVroid
